import Mathlib

/-!
Verification of the oscillator core of gen-waveform (src/oscillator.rs).

Shallow embedding conventions:
- f32 arithmetic is modelled exactly: parameter, phase and counter arithmetic in ℚ/ℕ,
  generated samples in ℝ (the sine-based generators are transcendental).
- The StdRng random source is modelled as an ambient stream of draws `rng : ℕ → ℝ`
  plus an index into it held by the oscillator state; `white_noise` returns the draw
  at the current index and advances the index.
- Mutex/atomic operations are modelled as plain reads and writes: the model is the
  single-threaded semantics of one `next_sample` call.  The `try_lock` publication of
  the visualization buffer is modelled as always succeeding.
- Rust `str::to_lowercase` is modelled as `String.toLower`; the two agree on ASCII
  input, which covers every accepted waveform name.
- The `as usize` cast of `sample_rate / frequency` truncates toward zero and
  saturates below at 0, modelled by `Int.toNat ∘ Int.floor` (coinciding for the
  non-negative quotients arising here; division by zero yields 0 in ℚ, a case in
  which the Rust code cannot be collecting samples since no phase wrap occurs at
  frequency 0).
-/

set_option maxRecDepth 40000

/-! ## Waveform (src/oscillator.rs lines 8-30) -/

inductive Waveform
  | Sine
  | Sawtooth
  | Triangle
  | Square
  | Noise
deriving DecidableEq

/-- FromStr for Waveform: match on the lowercased input, as the Rust
`match s.to_lowercase().as_str()` with two literal patterns per variant. -/
def Waveform.from_str (s : String) : Except String Waveform :=
  let t := s.toLower
  if t = "sine" ∨ t = "sin" then .ok .Sine
  else if t = "sawtooth" ∨ t = "saw" then .ok .Sawtooth
  else if t = "triangle" ∨ t = "tri" then .ok .Triangle
  else if t = "square" ∨ t = "squ" then .ok .Square
  else if t = "noise" ∨ t = "noi" then .ok .Noise
  else .error ("Unknown waveform: " ++ s)

/-! ## AudioParams (src/oscillator.rs lines 46-61) -/

structure AudioParams where
  waveform : Waveform
  frequency : ℚ
  volume : ℚ
deriving DecidableEq

/-- AudioParams::new: `volume.clamp(0.0, 1.0)`; waveform and frequency stored as given. -/
def AudioParams.new (waveform : Waveform) (frequency volume : ℚ) : AudioParams :=
  { waveform := waveform, frequency := frequency,
    volume := if volume < 0 then 0 else if 1 < volume then 1 else volume }

/-! ## Oscillator state (src/oscillator.rs lines 64-102) -/

structure Oscillator where
  params : AudioParams
  sample_rate : ℚ
  phase : ℚ
  rng_index : ℕ
  sample_buffer : List ℝ
  sample_counter : ℕ
  previous_sample : ℝ
  interpolation_enabled : Bool
  band_limited : Bool
  last_phase : ℚ
  collecting_cycle : Bool
  cycle_buffer : List ℝ

/-- Oscillator::new. -/
def Oscillator.new (params : AudioParams) (sample_rate : ℚ) (sample_buffer : List ℝ) :
    Oscillator :=
  { params := params, sample_rate := sample_rate, phase := 0, rng_index := 0,
    sample_buffer := sample_buffer, sample_counter := 0, previous_sample := 0,
    interpolation_enabled := false, band_limited := true, last_phase := 0,
    collecting_cycle := false, cycle_buffer := [] }

/-- The phase wrap loop of next_sample: `while self.phase >= 1.0 { self.phase -= 1.0 }`. -/
def wrapPhase (p : ℚ) : ℚ :=
  if h : 1 ≤ p then wrapPhase (p - 1) else p
termination_by (⌈p⌉).toNat
decreasing_by
  have h1 : (1 : ℚ) ≤ ((⌈p⌉ : ℤ) : ℚ) := le_trans h (Int.le_ceil p)
  have h2 : (1 : ℤ) ≤ ⌈p⌉ := by exact_mod_cast h1
  have h3 : ⌈p - 1⌉ = ⌈p⌉ - 1 := by
    rw [show p - 1 = p - ((1 : ℤ) : ℚ) by norm_num, Int.ceil_sub_int]
  simp only [h3]
  omega

/-! ## Waveform generators (src/oscillator.rs lines 219-308) -/

/-- Oscillator::sine. -/
noncomputable def sine (phase : ℚ) : ℝ := Real.sin (2 * Real.pi * (phase : ℝ))

/-- Oscillator::sawtooth_naive. -/
def sawtooth_naive (phase : ℚ) : ℝ := 2 * (phase : ℝ) - 1

/-- Oscillator::triangle_naive. -/
def triangle_naive (phase : ℚ) : ℝ :=
  if phase < 1/2 then 4 * (phase : ℝ) - 1 else 3 - 4 * (phase : ℝ)

/-- Oscillator::square_naive. -/
def square_naive (phase : ℚ) : ℝ := if phase < 1/2 then 1 else -1

/-- The harmonic loop of Oscillator::sawtooth_band_limited:
`while frequency * harmonic <= nyquist && harmonic <= 64`. -/
noncomputable def sawtoothBLAux (frequency nyquist phase : ℚ) (harmonic : ℕ) (sample : ℝ) :
    ℝ :=
  if h : frequency * (harmonic : ℚ) ≤ nyquist ∧ harmonic ≤ 64 then
    sawtoothBLAux frequency nyquist phase (harmonic + 1)
      (sample + Real.sin (2 * Real.pi * (phase : ℝ) * (harmonic : ℝ)) / (harmonic : ℝ))
  else sample
termination_by 65 - harmonic
decreasing_by
  obtain ⟨h1, h2⟩ := h
  omega

/-- Oscillator::sawtooth_band_limited (nyquist = sample_rate / 2, scale 2/π). -/
noncomputable def sawtooth_band_limited (frequency sample_rate phase : ℚ) : ℝ :=
  sawtoothBLAux frequency (sample_rate / 2) phase 1 0 * 2 / Real.pi

/-- The harmonic loop of Oscillator::triangle_band_limited: odd harmonics n = 2h-1,
alternating sign, amplitude 1/n², `while frequency * n <= nyquist && harmonic <= 32`. -/
noncomputable def triangleBLAux (frequency nyquist phase : ℚ) (harmonic : ℕ) (sample : ℝ) :
    ℝ :=
  if h : frequency * ((2 * harmonic - 1 : ℕ) : ℚ) ≤ nyquist ∧ harmonic ≤ 32 then
    triangleBLAux frequency nyquist phase (harmonic + 1)
      (sample + (if harmonic % 2 = 1 then (1 : ℝ) else -1) *
        Real.sin (2 * Real.pi * (phase : ℝ) * ((2 * harmonic - 1 : ℕ) : ℝ)) /
        (((2 * harmonic - 1) * (2 * harmonic - 1) : ℕ) : ℝ))
  else sample
termination_by 33 - harmonic
decreasing_by
  obtain ⟨h1, h2⟩ := h
  omega

/-- Oscillator::triangle_band_limited (scale 8/π²). -/
noncomputable def triangle_band_limited (frequency sample_rate phase : ℚ) : ℝ :=
  triangleBLAux frequency (sample_rate / 2) phase 1 0 * 8 / (Real.pi * Real.pi)

/-- The harmonic loop of Oscillator::square_band_limited: odd harmonics n = 2h-1,
amplitude 1/n, `while frequency * n <= nyquist && harmonic <= 32`. -/
noncomputable def squareBLAux (frequency nyquist phase : ℚ) (harmonic : ℕ) (sample : ℝ) :
    ℝ :=
  if h : frequency * ((2 * harmonic - 1 : ℕ) : ℚ) ≤ nyquist ∧ harmonic ≤ 32 then
    squareBLAux frequency nyquist phase (harmonic + 1)
      (sample + Real.sin (2 * Real.pi * (phase : ℝ) * ((2 * harmonic - 1 : ℕ) : ℝ)) /
        ((2 * harmonic - 1 : ℕ) : ℝ))
  else sample
termination_by 33 - harmonic
decreasing_by
  obtain ⟨h1, h2⟩ := h
  omega

/-- Oscillator::square_band_limited (scale 4/π). -/
noncomputable def square_band_limited (frequency sample_rate phase : ℚ) : ℝ :=
  squareBLAux frequency (sample_rate / 2) phase 1 0 * 4 / Real.pi

/-- The `match waveform` block of next_sample selecting the generator
(band_limited selects the band-limited variants; Noise draws from the rng stream). -/
noncomputable def raw_sample (rng : ℕ → ℝ) (s : Oscillator) : ℝ :=
  match s.params.waveform with
  | .Sine => sine s.phase
  | .Sawtooth =>
    if s.band_limited then sawtooth_band_limited s.params.frequency s.sample_rate s.phase
    else sawtooth_naive s.phase
  | .Triangle =>
    if s.band_limited then triangle_band_limited s.params.frequency s.sample_rate s.phase
    else triangle_naive s.phase
  | .Square =>
    if s.band_limited then square_band_limited s.params.frequency s.sample_rate s.phase
    else square_naive s.phase
  | .Noise => rng s.rng_index

/-! ## Visualization collection (src/oscillator.rs lines 167-217) -/

/-- The downsampling for-loop of collect_visualization_samples: keep the entries
whose index is a multiple of the downsample rate (index i, growing by 1 per entry). -/
def visualization_downsample : List ℝ → ℕ → ℕ → List ℝ
  | [], _, _ => []
  | x :: xs, i, rate =>
    if i % rate = 0 then x :: visualization_downsample xs (i + 1) rate
    else visualization_downsample xs (i + 1) rate

/-- The periodic-waveform part of collect_visualization_samples: cycle-boundary
detection, accumulation, and (on reaching 3 periods) downsample-and-publish. -/
def collect_periodic (s : Oscillator) (sample : ℝ) (frequency : ℚ) : Oscillator :=
  let s :=
    if ((1/2 : ℚ) < s.last_phase ∧ s.phase < 1/2) ∧ s.collecting_cycle = false then
      { s with collecting_cycle := true, cycle_buffer := [] }
    else s
  if s.collecting_cycle = true then
    let cycle_buffer := s.cycle_buffer ++ [sample]
    let samples_per_cycle := (⌊s.sample_rate / frequency⌋).toNat
    let target_samples := samples_per_cycle * 3
    if target_samples ≤ cycle_buffer.length then
      { s with
        collecting_cycle := false,
        cycle_buffer := cycle_buffer,
        sample_buffer :=
          visualization_downsample cycle_buffer 0 (max (target_samples / 300) 1) }
    else { s with cycle_buffer := cycle_buffer }
  else s

/-- The Noise part of collect_visualization_samples: every 100th sample is appended
to the shared buffer, and when the buffer exceeds 300 entries the oldest 100 are
drained. -/
def collect_noise (s : Oscillator) (sample : ℝ) : Oscillator :=
  if s.params.waveform = Waveform.Noise then
    let counter := s.sample_counter
    let s := { s with sample_counter := counter + 1 }
    if counter % 100 = 0 then
      let buffer := s.sample_buffer ++ [sample]
      let buffer := if 300 < buffer.length then buffer.drop 100 else buffer
      { s with sample_buffer := buffer }
    else s
  else s

/-- Oscillator::collect_visualization_samples: the periodic block followed by the
Noise block, as in the source. -/
def collect_visualization_samples (s : Oscillator) (sample : ℝ) (frequency : ℚ) :
    Oscillator :=
  collect_noise (collect_periodic s sample frequency) sample

/-! ## next_sample (src/oscillator.rs lines 105-164) -/

/-- Oscillator::next_sample: snapshot params, generate the raw sample, apply the
interpolation (smoothing) step unless disabled or the waveform is Noise, record
previous_sample, scale by volume, feed the visualization collector, advance and
wrap the phase, and return the output. -/
noncomputable def next_sample (rng : ℕ → ℝ) (s : Oscillator) : Oscillator × ℝ :=
  let waveform := s.params.waveform
  let frequency := s.params.frequency
  let volume := s.params.volume
  let raw := raw_sample rng s
  let rng_index1 := if waveform = Waveform.Noise then s.rng_index + 1 else s.rng_index
  let sample :=
    if s.interpolation_enabled = true ∧ waveform ≠ Waveform.Noise then
      s.previous_sample + (raw - s.previous_sample) * (1/10)
    else raw
  let s1 : Oscillator := { s with previous_sample := sample, rng_index := rng_index1 }
  let output : ℝ := sample * (volume : ℝ)
  let s2 := collect_visualization_samples s1 output frequency
  let s3 : Oscillator :=
    { s2 with
      last_phase := s2.phase,
      phase := wrapPhase (s2.phase + frequency / s.sample_rate) }
  (s3, output)

/-- A run of next_sample calls with the parameter store untouched between calls. -/
noncomputable def run (rng : ℕ → ℝ) (s : Oscillator) : ℕ → Oscillator
  | 0 => s
  | n + 1 => (next_sample rng (run rng s n)).1

/-- A run of next_sample calls in which an external controller may replace the
parameter store before each call (call n sees parameters ps n). -/
noncomputable def runWith (rng : ℕ → ℝ) (ps : ℕ → AudioParams) (s : Oscillator) :
    ℕ → Oscillator
  | 0 => s
  | n + 1 => (next_sample rng { runWith rng ps s n with params := ps n }).1

/-- The condition under which the current next_sample call finishes a collection and
publishes the visualization buffer: collecting (or just started by a detected wrap)
and the scratch buffer, after this call's push, reaches the three-period target. -/
def publishesNow (s : Oscillator) (frequency : ℚ) : Prop :=
  let started := ((1/2 : ℚ) < s.last_phase ∧ s.phase < 1/2) ∧ s.collecting_cycle = false
  let collecting1 := started ∨ s.collecting_cycle = true
  let len1 := (if started then 0 else s.cycle_buffer.length) + 1
  collecting1 ∧ (⌊s.sample_rate / frequency⌋).toNat * 3 ≤ len1

/-! ## Control projection

The control flow of next_sample (phases, counters, flags, buffer lengths) does not
depend on the real-valued samples.  The following computable mirror of that control
flow lets concrete runs be evaluated by the kernel; the lemmas below prove it agrees
with the projection of the real model. -/

structure CtrlState where
  phase : ℚ
  last_phase : ℚ
  collecting : Bool
  cycle_len : ℕ
  vis_len : ℕ
  counter : ℕ
deriving DecidableEq

/-- Closed form of the phase wrap loop. -/
def wrapPhaseFast (p : ℚ) : ℚ := if 1 ≤ p then p - (⌊p⌋ : ℚ) else p

/-- Number of indices below n that the downsampling loop keeps. -/
def dsLen (n rate : ℕ) : ℕ :=
  ((List.range n).filter (fun j => decide (j % rate = 0))).length

/-- Control mirror of collect_periodic. -/
def ctrl_collect_periodic (frequency sample_rate : ℚ) (c : CtrlState) : CtrlState :=
  let c :=
    if ((1/2 : ℚ) < c.last_phase ∧ c.phase < 1/2) ∧ c.collecting = false then
      { c with collecting := true, cycle_len := 0 }
    else c
  if c.collecting = true then
    let cycle_len := c.cycle_len + 1
    let samples_per_cycle := (⌊sample_rate / frequency⌋).toNat
    let target_samples := samples_per_cycle * 3
    if target_samples ≤ cycle_len then
      { c with
        collecting := false,
        cycle_len := cycle_len,
        vis_len := dsLen cycle_len (max (target_samples / 300) 1) }
    else { c with cycle_len := cycle_len }
  else c

/-- Control mirror of collect_noise. -/
def ctrl_collect_noise (waveform : Waveform) (c : CtrlState) : CtrlState :=
  if waveform = Waveform.Noise then
    let counter := c.counter
    let c := { c with counter := counter + 1 }
    if counter % 100 = 0 then
      let vis_len := c.vis_len + 1
      let vis_len := if 300 < vis_len then vis_len - 100 else vis_len
      { c with vis_len := vis_len }
    else c
  else c

/-- Control mirror of next_sample. -/
def ctrl_next (waveform : Waveform) (frequency sample_rate : ℚ) (c : CtrlState) :
    CtrlState :=
  let c1 := ctrl_collect_noise waveform (ctrl_collect_periodic frequency sample_rate c)
  { c1 with
    last_phase := c1.phase,
    phase := wrapPhaseFast (c1.phase + frequency / sample_rate) }

/-- Control mirror of run. -/
def ctrl_run (waveform : Waveform) (frequency sample_rate : ℚ) (c : CtrlState) :
    ℕ → CtrlState
  | 0 => c
  | n + 1 => ctrl_next waveform frequency sample_rate (ctrl_run waveform frequency sample_rate c n)

/-- Projection of the oscillator state onto its control components. -/
def proj (s : Oscillator) : CtrlState :=
  { phase := s.phase, last_phase := s.last_phase, collecting := s.collecting_cycle,
    cycle_len := s.cycle_buffer.length, vis_len := s.sample_buffer.length,
    counter := s.sample_counter }

/-- Three cycles worth of samples, as computed by collect_visualization_samples
(the f32→usize cast truncates; see the header note). -/
def targetOf (frequency sample_rate : ℚ) : ℕ := (⌊sample_rate / frequency⌋).toNat * 3

/-! ## Lemmas: the phase wrap loop -/

theorem wrapPhase_eq_fast (p : ℚ) : wrapPhase p = wrapPhaseFast p := by
  have H : ∀ n : ℕ, ∀ q : ℚ, (⌈q⌉).toNat ≤ n → wrapPhase q = wrapPhaseFast q := by
    intro n
    induction n with
    | zero =>
      intro q hq
      have h0 : ¬ (1 ≤ q) := by
        intro h1
        have : (1 : ℚ) ≤ ((⌈q⌉ : ℤ) : ℚ) := le_trans h1 (Int.le_ceil q)
        have : (1 : ℤ) ≤ ⌈q⌉ := by exact_mod_cast this
        omega
      rw [wrapPhase, wrapPhaseFast, dif_neg h0, if_neg h0]
    | succ n ih =>
      intro q hq
      by_cases h1 : 1 ≤ q
      · have hc : (1 : ℤ) ≤ ⌈q⌉ := by
          exact_mod_cast le_trans h1 (Int.le_ceil q)
        have hrec : (⌈q - 1⌉).toNat ≤ n := by
          rw [Int.ceil_sub_one]
          omega
        rw [wrapPhase, dif_pos h1, ih (q - 1) hrec]
        by_cases h2 : 1 ≤ q - 1
        · rw [wrapPhaseFast, wrapPhaseFast, if_pos h1, if_pos h2]
          rw [show q - 1 = q - ((1 : ℤ) : ℚ) by norm_num, Int.floor_sub_int]
          push_cast
          ring
        · have hfl : ⌊q⌋ = 1 := by
            rw [Int.floor_eq_iff]
            constructor
            · exact_mod_cast h1
            · push_cast
              linarith [lt_of_not_le h2]
          rw [wrapPhaseFast, wrapPhaseFast, if_pos h1, if_neg h2, hfl]
          push_cast
          ring
      · rw [wrapPhase, wrapPhaseFast, dif_neg h1, if_neg h1]
  exact H (⌈p⌉).toNat p le_rfl

theorem wrapPhaseFast_mem (p : ℚ) (hp : 0 ≤ p) :
    0 ≤ wrapPhaseFast p ∧ wrapPhaseFast p < 1 := by
  rw [wrapPhaseFast]
  split_ifs with h
  · have h1 : p - (⌊p⌋ : ℚ) = Int.fract p := rfl
    rw [h1]
    exact ⟨Int.fract_nonneg p, Int.fract_lt_one p⟩
  · exact ⟨hp, lt_of_not_le h⟩

/-! ## Lemmas: fields preserved by the collector stages -/

theorem collect_periodic_params (s : Oscillator) (x : ℝ) (f : ℚ) :
    (collect_periodic s x f).params = s.params := by
  simp only [collect_periodic]
  split_ifs <;> rfl

theorem collect_periodic_sample_rate (s : Oscillator) (x : ℝ) (f : ℚ) :
    (collect_periodic s x f).sample_rate = s.sample_rate := by
  simp only [collect_periodic]
  split_ifs <;> rfl

theorem collect_periodic_phase (s : Oscillator) (x : ℝ) (f : ℚ) :
    (collect_periodic s x f).phase = s.phase := by
  simp only [collect_periodic]
  split_ifs <;> rfl

theorem collect_periodic_last_phase (s : Oscillator) (x : ℝ) (f : ℚ) :
    (collect_periodic s x f).last_phase = s.last_phase := by
  simp only [collect_periodic]
  split_ifs <;> rfl

theorem collect_periodic_previous_sample (s : Oscillator) (x : ℝ) (f : ℚ) :
    (collect_periodic s x f).previous_sample = s.previous_sample := by
  simp only [collect_periodic]
  split_ifs <;> rfl

theorem collect_periodic_rng_index (s : Oscillator) (x : ℝ) (f : ℚ) :
    (collect_periodic s x f).rng_index = s.rng_index := by
  simp only [collect_periodic]
  split_ifs <;> rfl

theorem collect_periodic_interpolation (s : Oscillator) (x : ℝ) (f : ℚ) :
    (collect_periodic s x f).interpolation_enabled = s.interpolation_enabled := by
  simp only [collect_periodic]
  split_ifs <;> rfl

theorem collect_periodic_band_limited (s : Oscillator) (x : ℝ) (f : ℚ) :
    (collect_periodic s x f).band_limited = s.band_limited := by
  simp only [collect_periodic]
  split_ifs <;> rfl

theorem collect_periodic_sample_counter (s : Oscillator) (x : ℝ) (f : ℚ) :
    (collect_periodic s x f).sample_counter = s.sample_counter := by
  simp only [collect_periodic]
  split_ifs <;> rfl

theorem collect_noise_params (s : Oscillator) (x : ℝ) :
    (collect_noise s x).params = s.params := by
  simp only [collect_noise]
  split_ifs <;> rfl

theorem collect_noise_sample_rate (s : Oscillator) (x : ℝ) :
    (collect_noise s x).sample_rate = s.sample_rate := by
  simp only [collect_noise]
  split_ifs <;> rfl

theorem collect_noise_phase (s : Oscillator) (x : ℝ) :
    (collect_noise s x).phase = s.phase := by
  simp only [collect_noise]
  split_ifs <;> rfl

theorem collect_noise_last_phase (s : Oscillator) (x : ℝ) :
    (collect_noise s x).last_phase = s.last_phase := by
  simp only [collect_noise]
  split_ifs <;> rfl

theorem collect_noise_previous_sample (s : Oscillator) (x : ℝ) :
    (collect_noise s x).previous_sample = s.previous_sample := by
  simp only [collect_noise]
  split_ifs <;> rfl

theorem collect_noise_rng_index (s : Oscillator) (x : ℝ) :
    (collect_noise s x).rng_index = s.rng_index := by
  simp only [collect_noise]
  split_ifs <;> rfl

theorem collect_noise_interpolation (s : Oscillator) (x : ℝ) :
    (collect_noise s x).interpolation_enabled = s.interpolation_enabled := by
  simp only [collect_noise]
  split_ifs <;> rfl

theorem collect_noise_band_limited (s : Oscillator) (x : ℝ) :
    (collect_noise s x).band_limited = s.band_limited := by
  simp only [collect_noise]
  split_ifs <;> rfl

theorem collect_noise_collecting (s : Oscillator) (x : ℝ) :
    (collect_noise s x).collecting_cycle = s.collecting_cycle := by
  simp only [collect_noise]
  split_ifs <;> rfl

theorem collect_noise_cycle_buffer (s : Oscillator) (x : ℝ) :
    (collect_noise s x).cycle_buffer = s.cycle_buffer := by
  simp only [collect_noise]
  split_ifs <;> rfl

theorem collect_noise_not_noise (s : Oscillator) (x : ℝ)
    (h : s.params.waveform ≠ Waveform.Noise) : collect_noise s x = s := by
  simp only [collect_noise]
  rw [if_neg h]

/-! ## Lemmas: next_sample fields -/

theorem next_sample_params (rng : ℕ → ℝ) (s : Oscillator) :
    (next_sample rng s).1.params = s.params := by
  simp only [next_sample, collect_visualization_samples]
  rw [collect_noise_params, collect_periodic_params]

theorem next_sample_sample_rate (rng : ℕ → ℝ) (s : Oscillator) :
    (next_sample rng s).1.sample_rate = s.sample_rate := by
  simp only [next_sample, collect_visualization_samples]
  rw [collect_noise_sample_rate, collect_periodic_sample_rate]

theorem next_sample_phase (rng : ℕ → ℝ) (s : Oscillator) :
    (next_sample rng s).1.phase
      = wrapPhase (s.phase + s.params.frequency / s.sample_rate) := by
  simp only [next_sample, collect_visualization_samples]
  rw [collect_noise_phase, collect_periodic_phase]

theorem next_sample_last_phase (rng : ℕ → ℝ) (s : Oscillator) :
    (next_sample rng s).1.last_phase = s.phase := by
  simp only [next_sample, collect_visualization_samples]
  rw [collect_noise_phase, collect_periodic_phase]

theorem next_sample_interpolation (rng : ℕ → ℝ) (s : Oscillator) :
    (next_sample rng s).1.interpolation_enabled = s.interpolation_enabled := by
  simp only [next_sample, collect_visualization_samples]
  rw [collect_noise_interpolation, collect_periodic_interpolation]

/-! ## Lemmas: run fields -/

theorem run_params (rng : ℕ → ℝ) (s : Oscillator) (n : ℕ) :
    (run rng s n).params = s.params := by
  induction n with
  | zero => rfl
  | succ n ih =>
    simp only [run]
    rw [next_sample_params, ih]

theorem run_sample_rate (rng : ℕ → ℝ) (s : Oscillator) (n : ℕ) :
    (run rng s n).sample_rate = s.sample_rate := by
  induction n with
  | zero => rfl
  | succ n ih =>
    simp only [run]
    rw [next_sample_sample_rate, ih]

theorem runWith_sample_rate (rng : ℕ → ℝ) (ps : ℕ → AudioParams) (s : Oscillator) (n : ℕ) :
    (runWith rng ps s n).sample_rate = s.sample_rate := by
  induction n with
  | zero => rfl
  | succ n ih =>
    simp only [runWith]
    rw [next_sample_sample_rate]
    exact ih

/-! ## Lemmas: downsample lengths -/

theorem visualization_downsample_length (rate : ℕ) (l : List ℝ) :
    ∀ i : ℕ, (visualization_downsample l i rate).length
      = ((List.range' i l.length).filter (fun j => decide (j % rate = 0))).length := by
  induction l with
  | nil => intro i; rfl
  | cons x xs ih =>
    intro i
    simp only [visualization_downsample, List.length_cons, List.range'_succ, List.filter_cons]
    by_cases h : i % rate = 0
    · simp [h, ih (i + 1)]
    · simp [h, ih (i + 1)]

theorem visualization_downsample_length_zero (l : List ℝ) (rate : ℕ) :
    (visualization_downsample l 0 rate).length = dsLen l.length rate := by
  rw [visualization_downsample_length, dsLen, List.range_eq_range']

theorem dsLen_succ (n rate : ℕ) :
    dsLen (n + 1) rate = dsLen n rate + if n % rate = 0 then 1 else 0 := by
  rw [dsLen, dsLen, List.range_succ, List.filter_append, List.length_append]
  by_cases h : n % rate = 0 <;> simp [h]

theorem dsLen_eq (rate : ℕ) (hr : 0 < rate) (n : ℕ) :
    dsLen n rate = (n + rate - 1) / rate := by
  induction n with
  | zero =>
    have h0 : dsLen 0 rate = 0 := rfl
    rw [h0]
    symm
    apply Nat.div_eq_of_lt
    omega
  | succ n ih =>
    rw [dsLen_succ, ih]
    have h2 : n + 1 + rate - 1 = (n + rate - 1) + 1 := by omega
    rw [h2, Nat.succ_div]
    have h3 : (rate ∣ n + rate - 1 + 1) ↔ (n % rate = 0) := by
      rw [show n + rate - 1 + 1 = n + rate by omega]
      rw [Nat.dvd_add_self_right, Nat.dvd_iff_mod_eq_zero]
    by_cases h : n % rate = 0
    · rw [if_pos h, if_pos (h3.mpr h)]
    · rw [if_neg h, if_neg (fun hc => h (h3.mp hc))]

theorem dsLen_publish_bound (target : ℕ) :
    1 ≤ dsLen (max target 1) (max (target / 300) 1) ∧
      dsLen (max target 1) (max (target / 300) 1) ≤ 599 := by
  have hk : 0 < max (target / 300) 1 := lt_of_lt_of_le one_pos (le_max_right _ _)
  rw [dsLen_eq _ hk]
  have hc1 : max target 1 = target ∨ max target 1 = 1 := max_choice _ _
  have hc2 : max (target / 300) 1 = target / 300 ∨ max (target / 300) 1 = 1 :=
    max_choice _ _
  have hm1 : target ≤ max target 1 := le_max_left _ _
  have hm2 : 1 ≤ max target 1 := le_max_right _ _
  have hm3 : target / 300 ≤ max (target / 300) 1 := le_max_left _ _
  have hm4 : 1 ≤ max (target / 300) 1 := le_max_right _ _
  constructor
  · rw [Nat.le_div_iff_mul_le hk]
    omega
  · have hlt : max target 1 + max (target / 300) 1 - 1 < 600 * max (target / 300) 1 := by
      rcases hc1 with h1 | h1 <;> rcases hc2 with h2 | h2 <;> omega
    have := (Nat.div_lt_iff_lt_mul hk).mpr hlt
    omega

/-! ## Lemmas: the control projection commutes with next_sample -/

theorem proj_update_prev (s : Oscillator) (v : ℝ) (k : ℕ) :
    proj { s with previous_sample := v, rng_index := k } = proj s := rfl

theorem proj_update_phase (t : Oscillator) (a b : ℚ) :
    proj { t with last_phase := a, phase := b } = { proj t with last_phase := a, phase := b } :=
  rfl

theorem proj_collect_periodic (s : Oscillator) (x : ℝ) (f : ℚ) :
    proj (collect_periodic s x f) = ctrl_collect_periodic f s.sample_rate (proj s) := by
  simp only [collect_periodic, ctrl_collect_periodic, proj, List.length_append,
    List.length_cons, List.length_nil]
  split_ifs <;>
    simp_all [visualization_downsample_length_zero, List.length_append, List.length_cons,
      List.length_nil, CtrlState.mk.injEq]

theorem proj_collect_noise (s : Oscillator) (x : ℝ) :
    proj (collect_noise s x) = ctrl_collect_noise s.params.waveform (proj s) := by
  simp only [collect_noise, ctrl_collect_noise, proj, List.length_append,
    List.length_cons, List.length_nil]
  split_ifs <;>
    simp_all [List.length_drop, List.length_append, List.length_cons, List.length_nil,
      CtrlState.mk.injEq]

theorem ctrl_collect_periodic_phase (f sr : ℚ) (c : CtrlState) :
    (ctrl_collect_periodic f sr c).phase = c.phase := by
  simp only [ctrl_collect_periodic]
  split_ifs <;> rfl

theorem ctrl_collect_noise_phase (w : Waveform) (c : CtrlState) :
    (ctrl_collect_noise w c).phase = c.phase := by
  simp only [ctrl_collect_noise]
  split_ifs <;> rfl

theorem proj_next (rng : ℕ → ℝ) (s : Oscillator) :
    proj (next_sample rng s).1
      = ctrl_next s.params.waveform s.params.frequency s.sample_rate (proj s) := by
  simp only [next_sample, collect_visualization_samples, ctrl_next]
  rw [proj_update_phase]
  have hph : ∀ (v y z : ℝ) (k : ℕ),
      (collect_noise
        (collect_periodic { s with previous_sample := v, rng_index := k } y
          s.params.frequency) z).phase = s.phase := fun v y z k => by
    rw [collect_noise_phase, collect_periodic_phase]
  have hs2 : ∀ (v y z : ℝ) (k : ℕ),
      proj (collect_noise
        (collect_periodic { s with previous_sample := v, rng_index := k } y
          s.params.frequency) z)
        = ctrl_collect_noise s.params.waveform
            (ctrl_collect_periodic s.params.frequency s.sample_rate (proj s)) :=
    fun v y z k => by
      rw [proj_collect_noise, collect_periodic_params, proj_collect_periodic]
      rfl
  have hcp : (ctrl_collect_noise s.params.waveform
      (ctrl_collect_periodic s.params.frequency s.sample_rate (proj s))).phase = s.phase := by
    rw [ctrl_collect_noise_phase, ctrl_collect_periodic_phase]
    rfl
  rw [hph, hs2, hcp, wrapPhase_eq_fast]

theorem proj_run (rng : ℕ → ℝ) (s : Oscillator) (n : ℕ) :
    proj (run rng s n)
      = ctrl_run s.params.waveform s.params.frequency s.sample_rate (proj s) n := by
  induction n with
  | zero => rfl
  | succ n ih =>
    simp only [run, ctrl_run]
    rw [proj_next, run_params, run_sample_rate, ih]

/-! ## Publication lemmas -/

/-- publishesNow over the control projection. -/
def publishesNowC (frequency sample_rate : ℚ) (c : CtrlState) : Prop :=
  let started := ((1/2 : ℚ) < c.last_phase ∧ c.phase < 1/2) ∧ c.collecting = false
  let collecting1 := started ∨ c.collecting = true
  let len1 := (if started then 0 else c.cycle_len) + 1
  collecting1 ∧ (⌊sample_rate / frequency⌋).toNat * 3 ≤ len1

instance publishesNowC.dec (frequency sample_rate : ℚ) (c : CtrlState) :
    Decidable (publishesNowC frequency sample_rate c) := by
  unfold publishesNowC
  infer_instance

theorem publishesNow_iff_ctrl (s : Oscillator) (f : ℚ) :
    publishesNow s f ↔ publishesNowC f s.sample_rate (proj s) := Iff.rfl

theorem collect_periodic_invariant (t : Oscillator) (x : ℝ) (f : ℚ)
    (hinv : t.collecting_cycle = true → t.cycle_buffer.length < targetOf f t.sample_rate) :
    (collect_periodic t x f).collecting_cycle = true →
      (collect_periodic t x f).cycle_buffer.length < targetOf f t.sample_rate := by
  simp only [collect_periodic]
  by_cases h1 : ((1/2 : ℚ) < t.last_phase ∧ t.phase < 1/2) ∧ t.collecting_cycle = false
  · rw [if_pos h1]
    dsimp only
    rw [if_pos rfl]
    simp only [List.nil_append, List.length_cons, List.length_nil]
    by_cases h3 : (⌊t.sample_rate / f⌋).toNat * 3 ≤ 0 + 1
    · rw [if_pos h3]
      intro hcc
      exact absurd hcc (by simp)
    · rw [if_neg h3]
      intro _
      simp only [targetOf, List.length_cons, List.length_nil]
      omega
  · rw [if_neg h1]
    by_cases hB : t.collecting_cycle = true
    · rw [if_pos hB]
      simp only [List.length_append, List.length_cons, List.length_nil]
      have hlen := hinv hB
      by_cases h3 : (⌊t.sample_rate / f⌋).toNat * 3 ≤ t.cycle_buffer.length + (0 + 1)
      · rw [if_pos h3]
        intro hcc
        exact absurd hcc (by simp)
      · rw [if_neg h3]
        intro _
        simp only [targetOf, List.length_append, List.length_cons, List.length_nil]
        omega
    · rw [if_neg hB]
      exact hinv

theorem collect_periodic_publish (t : Oscillator) (x : ℝ) (f : ℚ)
    (hinv : t.collecting_cycle = true → t.cycle_buffer.length < targetOf f t.sample_rate)
    (hpub : publishesNow t f) :
    (collect_periodic t x f).collecting_cycle = false ∧
    (collect_periodic t x f).cycle_buffer.length = max (targetOf f t.sample_rate) 1 ∧
    (collect_periodic t x f).sample_buffer
      = visualization_downsample ((collect_periodic t x f).cycle_buffer) 0
          (max (targetOf f t.sample_rate / 300) 1) := by
  simp only [publishesNow] at hpub
  simp only [collect_periodic, targetOf]
  by_cases h1 : ((1/2 : ℚ) < t.last_phase ∧ t.phase < 1/2) ∧ t.collecting_cycle = false
  · rw [if_pos h1] at hpub
    have ht : (⌊t.sample_rate / f⌋).toNat * 3 ≤ 0 + 1 := hpub.2
    rw [if_pos h1]
    dsimp only
    rw [if_pos rfl]
    simp only [List.nil_append, List.length_cons, List.length_nil]
    rw [if_pos ht]
    refine ⟨rfl, ?_, rfl⟩
    simp only [List.length_cons, List.length_nil]
    omega
  · rw [if_neg h1] at hpub
    have hB : t.collecting_cycle = true := by
      rcases hpub.1 with h | h
      · exact absurd h h1
      · exact h
    have hlen := hinv hB
    simp only [targetOf] at hlen
    have h3 : (⌊t.sample_rate / f⌋).toNat * 3 ≤ t.cycle_buffer.length + (0 + 1) := by
      have := hpub.2
      omega
    rw [if_neg h1, if_pos hB]
    simp only [List.length_append, List.length_cons, List.length_nil]
    rw [if_pos h3]
    refine ⟨rfl, ?_, rfl⟩
    simp only [List.length_append, List.length_cons, List.length_nil]
    omega

theorem next_sample_invariant (rng : ℕ → ℝ) (s : Oscillator)
    (hinv : s.collecting_cycle = true →
      s.cycle_buffer.length < targetOf s.params.frequency s.sample_rate) :
    (next_sample rng s).1.collecting_cycle = true →
      (next_sample rng s).1.cycle_buffer.length
        < targetOf s.params.frequency s.sample_rate := by
  simp only [next_sample, collect_visualization_samples]
  rw [collect_noise_collecting, collect_noise_cycle_buffer]
  exact collect_periodic_invariant _ _ _ hinv

theorem run_collecting_invariant (rng : ℕ → ℝ) (p : AudioParams) (sr : ℚ) (buf : List ℝ)
    (n : ℕ) :
    (run rng (Oscillator.new p sr buf) n).collecting_cycle = true →
      (run rng (Oscillator.new p sr buf) n).cycle_buffer.length
        < targetOf p.frequency sr := by
  induction n with
  | zero =>
    intro h
    simp [run, Oscillator.new] at h
  | succ n ih =>
    have hp : (run rng (Oscillator.new p sr buf) n).params.frequency = p.frequency := by
      rw [run_params]; rfl
    have hsr : (run rng (Oscillator.new p sr buf) n).sample_rate = sr := by
      rw [run_sample_rate]; rfl
    have step := next_sample_invariant rng (run rng (Oscillator.new p sr buf) n)
      (by rw [hp, hsr]; exact ih)
    rw [hp, hsr] at step
    simp only [run]
    exact step

theorem next_sample_publish (rng : ℕ → ℝ) (s : Oscillator)
    (hw : s.params.waveform ≠ Waveform.Noise)
    (hinv : s.collecting_cycle = true →
      s.cycle_buffer.length < targetOf s.params.frequency s.sample_rate)
    (hpub : publishesNow s s.params.frequency) :
    (next_sample rng s).1.collecting_cycle = false ∧
    (next_sample rng s).1.cycle_buffer.length
      = max (targetOf s.params.frequency s.sample_rate) 1 ∧
    (next_sample rng s).1.sample_buffer
      = visualization_downsample ((next_sample rng s).1.cycle_buffer) 0
          (max (targetOf s.params.frequency s.sample_rate / 300) 1) := by
  simp only [next_sample, collect_visualization_samples]
  rw [collect_noise_not_noise _ _ (by rw [collect_periodic_params]; exact hw)]
  exact collect_periodic_publish _ _ _ hinv hpub

/-- C3 (amended): for any frequency and sample rate, whenever a next_sample call
finishes a collection and publishes, the published visualization buffer is obtained by
keeping every k-th sample of the scratch buffer, k = max(1, target/300), and its
length is positive and at most 599 — not 300: for three-period targets in [301, 599]
the downsample factor is 1 and every scratch sample is kept. -/
theorem claim_C3_amended_publish_bounds (rng : ℕ → ℝ) (p : AudioParams) (sr : ℚ) (buf : List ℝ)
    (n : ℕ) (hw : p.waveform ≠ Waveform.Noise)
    (hpub : publishesNow (run rng (Oscillator.new p sr buf) n) p.frequency) :
    0 < (run rng (Oscillator.new p sr buf) (n + 1)).sample_buffer.length ∧
    (run rng (Oscillator.new p sr buf) (n + 1)).sample_buffer.length ≤ 599 ∧
    (run rng (Oscillator.new p sr buf) (n + 1)).sample_buffer
      = visualization_downsample
          ((run rng (Oscillator.new p sr buf) (n + 1)).cycle_buffer) 0
          (max (targetOf p.frequency sr / 300) 1) := by
  have hp : (run rng (Oscillator.new p sr buf) n).params.frequency = p.frequency := by
    rw [run_params]; rfl
  have hw2 : (run rng (Oscillator.new p sr buf) n).params.waveform ≠ Waveform.Noise := by
    rw [run_params]; exact hw
  have hsr : (run rng (Oscillator.new p sr buf) n).sample_rate = sr := by
    rw [run_sample_rate]; rfl
  have hinv := run_collecting_invariant rng p sr buf n
  have step := next_sample_publish rng (run rng (Oscillator.new p sr buf) n) hw2
    (by rw [hp, hsr]; exact hinv) (by rw [hp]; exact hpub)
  rw [hp, hsr] at step
  simp only [run]
  obtain ⟨h1, h2, h3⟩ := step
  refine ⟨?_, ?_, h3⟩
  · rw [h3, visualization_downsample_length_zero, h2]
    have hb := dsLen_publish_bound (targetOf p.frequency sr)
    omega
  · rw [h3, visualization_downsample_length_zero, h2]
    have hb := dsLen_publish_bound (targetOf p.frequency sr)
    omega

/-- C4 (amended): after a detected cycle boundary the collector accumulates output
samples until the scratch buffer holds max(3 × trunc(sample_rate/frequency), 1)
samples — truncation, not rounding, of sample_rate/frequency — and only then stops
collecting and publishes. -/
theorem claim_C4_amended_publish_target (rng : ℕ → ℝ) (p : AudioParams) (sr : ℚ) (buf : List ℝ)
    (n : ℕ) (hw : p.waveform ≠ Waveform.Noise)
    (hpub : publishesNow (run rng (Oscillator.new p sr buf) n) p.frequency) :
    (run rng (Oscillator.new p sr buf) (n + 1)).collecting_cycle = false ∧
    (run rng (Oscillator.new p sr buf) (n + 1)).cycle_buffer.length
      = max (targetOf p.frequency sr) 1 := by
  have hp : (run rng (Oscillator.new p sr buf) n).params.frequency = p.frequency := by
    rw [run_params]; rfl
  have hw2 : (run rng (Oscillator.new p sr buf) n).params.waveform ≠ Waveform.Noise := by
    rw [run_params]; exact hw
  have hsr : (run rng (Oscillator.new p sr buf) n).sample_rate = sr := by
    rw [run_sample_rate]; rfl
  have hinv := run_collecting_invariant rng p sr buf n
  have step := next_sample_publish rng (run rng (Oscillator.new p sr buf) n) hw2
    (by rw [hp, hsr]; exact hinv) (by rw [hp]; exact hpub)
  rw [hp, hsr] at step
  simp only [run]
  exact ⟨step.1, step.2.1⟩

/-! ## Concrete evaluation of the frequency 1 Hz, sample rate 101 Hz control run -/

theorem ctrl_run_add (w : Waveform) (f sr : ℚ) (c : CtrlState) (m n : ℕ) :
    ctrl_run w f sr c (m + n) = ctrl_run w f sr (ctrl_run w f sr c m) n := by
  induction n with
  | zero => rfl
  | succ n ih =>
    rw [Nat.add_succ]
    simp only [ctrl_run]
    rw [ih]

theorem c3_eval400 :
    ctrl_run Waveform.Sine 1 101
      { phase := 0, last_phase := 0, collecting := false, cycle_len := 0, vis_len := 0,
        counter := 0 } 400
      = { phase := 97/101, last_phase := 96/101, collecting := true, cycle_len := 299,
          vis_len := 0, counter := 0 } := by
  have h1 : ctrl_run Waveform.Sine 1 101
      { phase := 0, last_phase := 0, collecting := false, cycle_len := 0, vis_len := 0,
        counter := 0 } 50
      = { phase := 50/101, last_phase := 49/101, collecting := false, cycle_len := 0,
          vis_len := 0, counter := 0 } := by
    with_unfolding_all exact of_decide_eq_true rfl
  have h2 : ctrl_run Waveform.Sine 1 101
      { phase := 50/101, last_phase := 49/101, collecting := false, cycle_len := 0,
        vis_len := 0, counter := 0 } 50
      = { phase := 100/101, last_phase := 99/101, collecting := false, cycle_len := 0,
          vis_len := 0, counter := 0 } := by
    with_unfolding_all exact of_decide_eq_true rfl
  have h3 : ctrl_run Waveform.Sine 1 101
      { phase := 100/101, last_phase := 99/101, collecting := false, cycle_len := 0,
        vis_len := 0, counter := 0 } 50
      = { phase := 49/101, last_phase := 48/101, collecting := true, cycle_len := 49,
          vis_len := 0, counter := 0 } := by
    with_unfolding_all exact of_decide_eq_true rfl
  have h4 : ctrl_run Waveform.Sine 1 101
      { phase := 49/101, last_phase := 48/101, collecting := true, cycle_len := 49,
        vis_len := 0, counter := 0 } 50
      = { phase := 99/101, last_phase := 98/101, collecting := true, cycle_len := 99,
          vis_len := 0, counter := 0 } := by
    with_unfolding_all exact of_decide_eq_true rfl
  have h5 : ctrl_run Waveform.Sine 1 101
      { phase := 99/101, last_phase := 98/101, collecting := true, cycle_len := 99,
        vis_len := 0, counter := 0 } 50
      = { phase := 48/101, last_phase := 47/101, collecting := true, cycle_len := 149,
          vis_len := 0, counter := 0 } := by
    with_unfolding_all exact of_decide_eq_true rfl
  have h6 : ctrl_run Waveform.Sine 1 101
      { phase := 48/101, last_phase := 47/101, collecting := true, cycle_len := 149,
        vis_len := 0, counter := 0 } 50
      = { phase := 98/101, last_phase := 97/101, collecting := true, cycle_len := 199,
          vis_len := 0, counter := 0 } := by
    with_unfolding_all exact of_decide_eq_true rfl
  have h7 : ctrl_run Waveform.Sine 1 101
      { phase := 98/101, last_phase := 97/101, collecting := true, cycle_len := 199,
        vis_len := 0, counter := 0 } 50
      = { phase := 47/101, last_phase := 46/101, collecting := true, cycle_len := 249,
          vis_len := 0, counter := 0 } := by
    with_unfolding_all exact of_decide_eq_true rfl
  have h8 : ctrl_run Waveform.Sine 1 101
      { phase := 47/101, last_phase := 46/101, collecting := true, cycle_len := 249,
        vis_len := 0, counter := 0 } 50
      = { phase := 97/101, last_phase := 96/101, collecting := true, cycle_len := 299,
          vis_len := 0, counter := 0 } := by
    with_unfolding_all exact of_decide_eq_true rfl
  rw [show (400 : ℕ) = 50 + 350 from rfl, ctrl_run_add, h1]
  rw [show (350 : ℕ) = 50 + 300 from rfl, ctrl_run_add, h2]
  rw [show (300 : ℕ) = 50 + 250 from rfl, ctrl_run_add, h3]
  rw [show (250 : ℕ) = 50 + 200 from rfl, ctrl_run_add, h4]
  rw [show (200 : ℕ) = 50 + 150 from rfl, ctrl_run_add, h5]
  rw [show (150 : ℕ) = 50 + 100 from rfl, ctrl_run_add, h6]
  rw [show (100 : ℕ) = 50 + 50 from rfl, ctrl_run_add, h7]
  exact h8

theorem c3_eval403 :
    ctrl_run Waveform.Sine 1 101
      { phase := 0, last_phase := 0, collecting := false, cycle_len := 0, vis_len := 0,
        counter := 0 } 403
      = { phase := 100/101, last_phase := 99/101, collecting := true, cycle_len := 302,
          vis_len := 0, counter := 0 } := by
  rw [show (403 : ℕ) = 400 + 3 from rfl, ctrl_run_add, c3_eval400]
  with_unfolding_all exact of_decide_eq_true rfl

theorem c3_eval404 :
    ctrl_run Waveform.Sine 1 101
      { phase := 0, last_phase := 0, collecting := false, cycle_len := 0, vis_len := 0,
        counter := 0 } 404
      = { phase := 0, last_phase := 100/101, collecting := false, cycle_len := 303,
          vis_len := 303, counter := 0 } := by
  rw [show (404 : ℕ) = 400 + 4 from rfl, ctrl_run_add, c3_eval400]
  with_unfolding_all exact of_decide_eq_true rfl

/-! ## Claims -/

/-- Counterexample to C3 as stated: with frequency 1 Hz and sample rate 101 Hz (both
positive), the collector publishes at call 404 (publishesNow holds at state 403) and the
published visualization buffer has 303 entries, exceeding 300: the three-period target is
303 and the downsample factor max(1, 303/300) is 1, so every scratch sample is kept. -/
theorem claim_C3_counterexample :
    (0 : ℚ) < (AudioParams.new Waveform.Sine 1 1).frequency ∧ (0 : ℚ) < 101 ∧
    publishesNow
      (run (fun _ => (0 : ℝ)) (Oscillator.new (AudioParams.new Waveform.Sine 1 1) 101 []) 403)
      (AudioParams.new Waveform.Sine 1 1).frequency ∧
    (run (fun _ => (0 : ℝ)) (Oscillator.new (AudioParams.new Waveform.Sine 1 1) 101 [])
        404).sample_buffer.length = 303 ∧
    300 < (run (fun _ => (0 : ℝ))
      (Oscillator.new (AudioParams.new Waveform.Sine 1 1) 101 []) 404).sample_buffer.length := by
  have h403 : proj (run (fun _ => (0 : ℝ))
      (Oscillator.new (AudioParams.new Waveform.Sine 1 1) 101 []) 403)
      = { phase := 100/101, last_phase := 99/101, collecting := true, cycle_len := 302,
          vis_len := 0, counter := 0 } := by
    rw [proj_run]
    exact c3_eval403
  have h404 : proj (run (fun _ => (0 : ℝ))
      (Oscillator.new (AudioParams.new Waveform.Sine 1 1) 101 []) 404)
      = { phase := 0, last_phase := 100/101, collecting := false, cycle_len := 303,
          vis_len := 303, counter := 0 } := by
    rw [proj_run]
    exact c3_eval404
  refine ⟨by norm_num [AudioParams.new], by norm_num, ?_, ?_, ?_⟩
  · rw [publishesNow_iff_ctrl, run_sample_rate, h403]
    with_unfolding_all exact of_decide_eq_true rfl
  · show (proj (run (fun _ => (0 : ℝ))
      (Oscillator.new (AudioParams.new Waveform.Sine 1 1) 101 []) 404)).vis_len = 303
    rw [h404]
  · show 300 < (proj (run (fun _ => (0 : ℝ))
      (Oscillator.new (AudioParams.new Waveform.Sine 1 1) 101 []) 404)).vis_len
    rw [h404]
    norm_num

/-- Control evaluation of the frequency 3 Hz, sample rate 5 Hz run after 4 calls. -/
theorem c4_eval4 :
    proj (run (fun _ => (0 : ℝ))
      (Oscillator.new (AudioParams.new Waveform.Sine 3 1) 5 []) 4)
      = { phase := 2/5, last_phase := 4/5, collecting := true, cycle_len := 2,
          vis_len := 0, counter := 0 } := by
  rw [proj_run]
  with_unfolding_all exact of_decide_eq_true rfl

/-- Control evaluation of the frequency 3 Hz, sample rate 5 Hz run after 5 calls. -/
theorem c4_eval5 :
    proj (run (fun _ => (0 : ℝ))
      (Oscillator.new (AudioParams.new Waveform.Sine 3 1) 5 []) 5)
      = { phase := 0, last_phase := 2/5, collecting := false, cycle_len := 3,
          vis_len := 3, counter := 0 } := by
  rw [proj_run]
  with_unfolding_all exact of_decide_eq_true rfl

/-- In the frequency 3 Hz, sample rate 5 Hz run, call 5 finishes a collection. -/
theorem c4_publishes4 :
    publishesNow
      (run (fun _ => (0 : ℝ)) (Oscillator.new (AudioParams.new Waveform.Sine 3 1) 5 []) 4)
      (AudioParams.new Waveform.Sine 3 1).frequency := by
  rw [publishesNow_iff_ctrl, run_sample_rate, c4_eval4]
  with_unfolding_all exact of_decide_eq_true rfl

/-- Counterexample to C4 as stated: with frequency 3 Hz and sample rate 5 Hz the
collector stops and publishes once the scratch buffer holds 3 samples
(3 × trunc(5/3) = 3), not the 3 × round(5/3) = 6 samples the claim asks for. -/
theorem claim_C4_counterexample :
    (0 : ℚ) < (AudioParams.new Waveform.Sine 3 1).frequency ∧ (0 : ℚ) < 5 ∧
    publishesNow
      (run (fun _ => (0 : ℝ)) (Oscillator.new (AudioParams.new Waveform.Sine 3 1) 5 []) 4)
      (AudioParams.new Waveform.Sine 3 1).frequency ∧
    (run (fun _ => (0 : ℝ)) (Oscillator.new (AudioParams.new Waveform.Sine 3 1) 5 [])
        5).collecting_cycle = false ∧
    (run (fun _ => (0 : ℝ)) (Oscillator.new (AudioParams.new Waveform.Sine 3 1) 5 [])
        5).cycle_buffer.length = 3 ∧
    (run (fun _ => (0 : ℝ)) (Oscillator.new (AudioParams.new Waveform.Sine 3 1) 5 [])
        5).sample_buffer.length = 3 ∧
    (3 : ℤ) * round ((5 : ℚ) / 3) = 6 := by
  have h4 := c4_eval4
  have h5 := c4_eval5
  refine ⟨by norm_num [AudioParams.new], by norm_num, ?_, ?_, ?_, ?_, ?_⟩
  · exact c4_publishes4
  · show (proj (run (fun _ => (0 : ℝ))
      (Oscillator.new (AudioParams.new Waveform.Sine 3 1) 5 []) 5)).collecting = false
    rw [h5]
  · show (proj (run (fun _ => (0 : ℝ))
      (Oscillator.new (AudioParams.new Waveform.Sine 3 1) 5 []) 5)).cycle_len = 3
    rw [h5]
  · show (proj (run (fun _ => (0 : ℝ))
      (Oscillator.new (AudioParams.new Waveform.Sine 3 1) 5 []) 5)).vis_len = 3
    rw [h5]
  · rw [round_eq]
    rw [show (5 : ℚ) / 3 + 1 / 2 = 13 / 6 by norm_num]
    rw [show ⌊(13 : ℚ) / 6⌋ = 2 by
      rw [Int.floor_eq_iff]; norm_num]
    norm_num

/-- Witness for the amended C3 at frequency 3 Hz, sample rate 5 Hz, call 5. -/
theorem claim_C3_witness :
    0 < (run (fun _ => (0 : ℝ)) (Oscillator.new (AudioParams.new Waveform.Sine 3 1) 5 [])
        (4 + 1)).sample_buffer.length ∧
    (run (fun _ => (0 : ℝ)) (Oscillator.new (AudioParams.new Waveform.Sine 3 1) 5 [])
        (4 + 1)).sample_buffer.length ≤ 599 ∧
    (run (fun _ => (0 : ℝ)) (Oscillator.new (AudioParams.new Waveform.Sine 3 1) 5 [])
        (4 + 1)).sample_buffer
      = visualization_downsample
          ((run (fun _ => (0 : ℝ)) (Oscillator.new (AudioParams.new Waveform.Sine 3 1) 5 [])
            (4 + 1)).cycle_buffer) 0
          (max (targetOf (AudioParams.new Waveform.Sine 3 1).frequency 5 / 300) 1) :=
  claim_C3_amended_publish_bounds (fun _ => (0 : ℝ)) (AudioParams.new Waveform.Sine 3 1) 5
    [] 4 (by with_unfolding_all exact of_decide_eq_true rfl) c4_publishes4

/-- Witness for the amended C4 at frequency 3 Hz, sample rate 5 Hz, call 5. -/
theorem claim_C4_witness :
    (run (fun _ => (0 : ℝ)) (Oscillator.new (AudioParams.new Waveform.Sine 3 1) 5 [])
        (4 + 1)).collecting_cycle = false ∧
    (run (fun _ => (0 : ℝ)) (Oscillator.new (AudioParams.new Waveform.Sine 3 1) 5 [])
        (4 + 1)).cycle_buffer.length
      = max (targetOf (AudioParams.new Waveform.Sine 3 1).frequency 5) 1 :=
  claim_C4_amended_publish_target (fun _ => (0 : ℝ)) (AudioParams.new Waveform.Sine 3 1) 5
    [] 4 (by with_unfolding_all exact of_decide_eq_true rfl) c4_publishes4

/-- C1: for every sequence of next_sample calls on an oscillator constructed with
phase 0, under any per-call parameter stores with positive frequency and a positive
sample rate, the phase lies in [0, 1) after every call. -/
theorem claim_C1_phase_unit_interval (rng : ℕ → ℝ) (ps : ℕ → AudioParams)
    (p0 : AudioParams) (sr : ℚ) (buf : List ℝ)
    (hf : ∀ n, 0 < (ps n).frequency) (hsr : 0 < sr) (n : ℕ) :
    0 ≤ (runWith rng ps (Oscillator.new p0 sr buf) n).phase ∧
      (runWith rng ps (Oscillator.new p0 sr buf) n).phase < 1 := by
  induction n with
  | zero =>
    constructor
    · exact le_refl 0
    · norm_num [runWith, Oscillator.new]
  | succ n ih =>
    simp only [runWith]
    rw [next_sample_phase, wrapPhase_eq_fast]
    have hinc : 0 < (ps n).frequency / sr := div_pos (hf n) hsr
    have hph : ({ runWith rng ps (Oscillator.new p0 sr buf) n with params := ps n }).phase
        = (runWith rng ps (Oscillator.new p0 sr buf) n).phase := rfl
    have hr : ({ runWith rng ps (Oscillator.new p0 sr buf) n with
        params := ps n }).sample_rate = sr := by
      show (runWith rng ps (Oscillator.new p0 sr buf) n).sample_rate = sr
      rw [runWith_sample_rate]
      rfl
    rw [hph, hr]
    apply wrapPhaseFast_mem
    have := ih.1
    positivity

/-- Witness for C1 at 440 Hz, sample rate 44100 Hz, after 3 calls. -/
theorem claim_C1_witness :
    0 ≤ (runWith (fun _ => (0 : ℝ)) (fun _ => AudioParams.new Waveform.Sine 440 1)
        (Oscillator.new (AudioParams.new Waveform.Sine 440 1) 44100 []) 3).phase ∧
      (runWith (fun _ => (0 : ℝ)) (fun _ => AudioParams.new Waveform.Sine 440 1)
        (Oscillator.new (AudioParams.new Waveform.Sine 440 1) 44100 []) 3).phase < 1 :=
  claim_C1_phase_unit_interval (fun _ => (0 : ℝ)) (fun _ => AudioParams.new Waveform.Sine 440 1)
    (AudioParams.new Waveform.Sine 440 1) 44100 []
    (fun _ => by norm_num [AudioParams.new]) (by norm_num) 3

/-- C9: next_sample never writes the parameter store: the stored waveform, frequency
and volume are identical before and after every call. -/
theorem claim_C9_params_unchanged (rng : ℕ → ℝ) (s : Oscillator) :
    (next_sample rng s).1.params = s.params :=
  next_sample_params rng s

/-- C10: on every next_sample call with smoothing disabled or the Noise waveform,
previous_sample is overwritten with the raw generator output, so the smoothing history
tracks raw output in those cases. -/
theorem claim_C10_previous_tracks_raw (rng : ℕ → ℝ) (s : Oscillator)
    (h : s.interpolation_enabled = false ∨ s.params.waveform = Waveform.Noise) :
    (next_sample rng s).1.previous_sample = raw_sample rng s := by
  simp only [next_sample, collect_visualization_samples]
  rw [collect_noise_previous_sample, collect_periodic_previous_sample]
  show (if s.interpolation_enabled = true ∧ s.params.waveform ≠ Waveform.Noise then
      s.previous_sample + (raw_sample rng s - s.previous_sample) * (1/10)
    else raw_sample rng s) = raw_sample rng s
  rcases h with h | h
  · rw [if_neg]
    intro hc
    rw [h] at hc
    exact absurd hc.1 (by simp)
  · rw [if_neg]
    intro hc
    exact hc.2 h

/-- Witness for C10 on a freshly constructed Noise oscillator. -/
theorem claim_C10_witness :
    (next_sample (fun _ => (0 : ℝ))
        (Oscillator.new (AudioParams.new Waveform.Noise 440 1) 44100 [])).1.previous_sample
      = raw_sample (fun _ => (0 : ℝ))
          (Oscillator.new (AudioParams.new Waveform.Noise 440 1) 44100 []) :=
  claim_C10_previous_tracks_raw (fun _ => (0 : ℝ))
    (Oscillator.new (AudioParams.new Waveform.Noise 440 1) 44100 []) (Or.inl rfl)

/-- C7: when smoothing is enabled and the waveform is not Noise, the emitted pre-volume
sample equals previous + (raw - previous) * 0.1 and becomes the new previous_sample,
and the output is that value times volume; for Noise the smoothing step is skipped and
the raw sample is used. -/
theorem claim_C7_smoothing (rng : ℕ → ℝ) (s : Oscillator) :
    (s.interpolation_enabled = true → s.params.waveform ≠ Waveform.Noise →
      (next_sample rng s).1.previous_sample
          = s.previous_sample + (raw_sample rng s - s.previous_sample) * (1/10) ∧
        (next_sample rng s).2
          = (s.previous_sample + (raw_sample rng s - s.previous_sample) * (1/10))
              * (s.params.volume : ℝ)) ∧
    (s.params.waveform = Waveform.Noise →
      (next_sample rng s).1.previous_sample = raw_sample rng s ∧
        (next_sample rng s).2 = raw_sample rng s * (s.params.volume : ℝ)) := by
  constructor
  · intro h1 h2
    constructor
    · simp only [next_sample, collect_visualization_samples]
      rw [collect_noise_previous_sample, collect_periodic_previous_sample]
      show (if s.interpolation_enabled = true ∧ s.params.waveform ≠ Waveform.Noise then
          s.previous_sample + (raw_sample rng s - s.previous_sample) * (1/10)
        else raw_sample rng s)
          = s.previous_sample + (raw_sample rng s - s.previous_sample) * (1/10)
      rw [if_pos ⟨h1, h2⟩]
    · simp only [next_sample]
      rw [if_pos ⟨h1, h2⟩]
  · intro h
    have hn : ¬ (s.interpolation_enabled = true ∧ s.params.waveform ≠ Waveform.Noise) :=
      fun hc => hc.2 h
    constructor
    · simp only [next_sample, collect_visualization_samples]
      rw [collect_noise_previous_sample, collect_periodic_previous_sample]
      show (if s.interpolation_enabled = true ∧ s.params.waveform ≠ Waveform.Noise then
          s.previous_sample + (raw_sample rng s - s.previous_sample) * (1/10)
        else raw_sample rng s) = raw_sample rng s
      rw [if_neg hn]
    · simp only [next_sample]
      rw [if_neg hn]

/-- C5: AudioParams::new stores waveform and frequency unchanged and clamps volume to
[0, 1]; volume 1.5 is stored as 1 and volume -0.5 as 0. -/
theorem claim_C5_volume_clamped (w : Waveform) (f v : ℚ) :
    (AudioParams.new w f v).waveform = w ∧
    (AudioParams.new w f v).frequency = f ∧
    0 ≤ (AudioParams.new w f v).volume ∧ (AudioParams.new w f v).volume ≤ 1 ∧
    (AudioParams.new w f (1.5 : ℚ)).volume = 1 ∧
    (AudioParams.new w f (-0.5 : ℚ)).volume = 0 := by
  refine ⟨rfl, rfl, ?_, ?_, ?_, ?_⟩
  · simp only [AudioParams.new]
    split_ifs with h1 h2
    · norm_num
    · norm_num
    · linarith [not_lt.mp h1]
  · simp only [AudioParams.new]
    split_ifs with h1 h2
    · norm_num
    · norm_num
    · linarith [not_lt.mp h2]
  · simp only [AudioParams.new]
    norm_num
  · simp only [AudioParams.new]
    norm_num

/-- C6: waveform parsing accepts, case-insensitively via lowercasing, exactly the
canonical name or 3-letter abbreviation of each of the five variants, and fails with the
invalid-waveform error on every other string; the parser is a pure function. -/
theorem claim_C6_waveform_parsing (s : String) :
    (Waveform.from_str s = .ok .Sine ↔ s.toLower = "sine" ∨ s.toLower = "sin") ∧
    (Waveform.from_str s = .ok .Sawtooth ↔ s.toLower = "sawtooth" ∨ s.toLower = "saw") ∧
    (Waveform.from_str s = .ok .Triangle ↔ s.toLower = "triangle" ∨ s.toLower = "tri") ∧
    (Waveform.from_str s = .ok .Square ↔ s.toLower = "square" ∨ s.toLower = "squ") ∧
    (Waveform.from_str s = .ok .Noise ↔ s.toLower = "noise" ∨ s.toLower = "noi") ∧
    (Waveform.from_str s = .error ("Unknown waveform: " ++ s) ↔
      s.toLower ∉ ["sine", "sin", "sawtooth", "saw", "triangle", "tri", "square", "squ",
        "noise", "noi"]) := by
  simp only [Waveform.from_str]
  generalize s.toLower = t
  split_ifs with h1 h2 h3 h4 h5 <;>
    simp_all [List.mem_cons, List.not_mem_nil, not_or] <;>
    first
      | (rcases h5 with h | h <;> subst h <;> simp)
      | (rcases h4 with h | h <;> subst h <;> simp)
      | (rcases h3 with h | h <;> subst h <;> simp)
      | (rcases h2 with h | h <;> subst h <;> simp)
      | (rcases h1 with h | h <;> subst h <;> simp)

/-- C2 (amended): with frequency ≤ 0 the call still terminates (the harmonic loops are
capped), but next_sample does not emit silence for every waveform: for Noise it returns
the current rng draw scaled by volume. -/
theorem claim_C2_amended_noise_not_silent (rng : ℕ → ℝ) (s : Oscillator)
    (hf : s.params.frequency ≤ 0) (hw : s.params.waveform = Waveform.Noise) :
    (next_sample rng s).2 = rng s.rng_index * (s.params.volume : ℝ) := by
  simp only [next_sample]
  rw [if_neg (fun hc => hc.2 hw)]
  have hraw : raw_sample rng s = rng s.rng_index := by
    simp only [raw_sample, hw]
  rw [hraw]

/-- Counterexample to C2 as stated: with frequency -100 ≤ 0 and the Noise waveform,
next_sample returns the rng draw 1/2 (times volume 1), not 0. -/
theorem claim_C2_counterexample :
    (AudioParams.new Waveform.Noise (-100) 1).frequency ≤ 0 ∧
    (next_sample (fun _ => (1/2 : ℝ))
        (Oscillator.new (AudioParams.new Waveform.Noise (-100) 1) 44100 [])).2 = 1/2 ∧
    ((1/2 : ℝ) ≠ 0) := by
  refine ⟨by norm_num [AudioParams.new], ?_, by norm_num⟩
  simp only [next_sample]
  rw [if_neg (fun hc => hc.2 rfl)]
  have hraw : raw_sample (fun _ => (1/2 : ℝ))
      (Oscillator.new (AudioParams.new Waveform.Noise (-100) 1) 44100 []) = 1/2 := rfl
  rw [hraw]
  show (1/2 : ℝ) * ((AudioParams.new Waveform.Noise (-100) 1).volume : ℝ) = 1/2
  norm_num [AudioParams.new]

/-- Witness for the amended C2 on a Noise oscillator with frequency -5. -/
theorem claim_C2_witness :
    (next_sample (fun _ => (3/4 : ℝ))
        (Oscillator.new (AudioParams.new Waveform.Noise (-5) 1) 48000 [])).2
      = (fun _ => (3/4 : ℝ))
          ((Oscillator.new (AudioParams.new Waveform.Noise (-5) 1) 48000 []).rng_index)
        * ((Oscillator.new (AudioParams.new Waveform.Noise (-5) 1) 48000
            []).params.volume : ℝ) :=
  claim_C2_amended_noise_not_silent (fun _ => (3/4 : ℝ))
    (Oscillator.new (AudioParams.new Waveform.Noise (-5) 1) 48000 [])
    (by norm_num [Oscillator.new, AudioParams.new]) rfl

/-! ## Claim C8: band-limited versus naive square wave -/

/-- At phase 1/4 the harmonic sine factors alternate: sin(2π·(1/4)·(2k+1)) = (-1)^k. -/
theorem sin_odd_quarter (k : ℕ) :
    Real.sin (2 * Real.pi * ((1/4 : ℚ) : ℝ) * (2 * (k : ℝ) + 1)) = (-1) ^ k := by
  have hq : ((1/4 : ℚ) : ℝ) = 1/4 := by norm_num
  rw [hq]
  induction k with
  | zero =>
    rw [show 2 * Real.pi * (1/4 : ℝ) * (2 * ((0 : ℕ) : ℝ) + 1) = Real.pi / 2 by
      push_cast; ring]
    rw [Real.sin_pi_div_two]
    norm_num
  | succ k ih =>
    rw [show 2 * Real.pi * (1/4 : ℝ) * (2 * ((k + 1 : ℕ) : ℝ) + 1)
        = 2 * Real.pi * (1/4 : ℝ) * (2 * ((k : ℕ) : ℝ) + 1) + Real.pi by
      push_cast; ring]
    rw [Real.sin_add_pi, ih, pow_succ]
    ring

example (frequency nyquist phase : ℚ) (acc : ℝ) :
    squareBLAux frequency nyquist phase 33 acc = acc := by
  rw [squareBLAux]
  rw [dif_neg]
  intro hc
  omega

/-- When the frequency guard holds for every harmonic index up to the cap, the
square-wave harmonic loop computes the full 32-term sum. -/
theorem squareBLAux_eq_sum (frequency nyquist phase : ℚ)
    (H : ∀ h : ℕ, 1 ≤ h → h ≤ 32 → frequency * ((2 * h - 1 : ℕ) : ℚ) ≤ nyquist) :
    ∀ r : ℕ, r ≤ 32 → ∀ acc : ℝ,
      squareBLAux frequency nyquist phase (33 - r) acc
        = acc + ∑ j in Finset.Ico (33 - r) 33,
            Real.sin (2 * Real.pi * (phase : ℝ) * ((2 * j - 1 : ℕ) : ℝ))
              / ((2 * j - 1 : ℕ) : ℝ) := by
  intro r
  induction r with
  | zero =>
    intro _ acc
    rw [show (33 : ℕ) - 0 = 33 from rfl]
    rw [squareBLAux, dif_neg (by intro hc; omega)]
    simp
  | succ r ih =>
    intro hr acc
    have h0 : 33 - (r + 1) = 32 - r := by omega
    have h1 : 1 ≤ 32 - r := by omega
    have h2 : 32 - r ≤ 32 := by omega
    have h3 : 32 - r + 1 = 33 - r := by omega
    rw [h0]
    rw [squareBLAux, dif_pos ⟨H _ h1 h2, h2⟩]
    rw [h3, ih (by omega)]
    rw [Finset.sum_eq_sum_Ico_succ_bot (show 32 - r < 33 by omega)]
    rw [h3]
    ring

/-- At phase 1/4, frequency 100 Hz, sample rate 44100 Hz, the band-limited square wave
equals the 32-term Leibniz partial sum times 4/π. -/
theorem square_band_limited_eval :
    square_band_limited 100 44100 (1/4)
      = (∑ k in Finset.range 32, ((-1 : ℝ)) ^ k / (2 * (k : ℝ) + 1)) * 4 / Real.pi := by
  have H : ∀ h : ℕ, 1 ≤ h → h ≤ 32 → (100 : ℚ) * ((2 * h - 1 : ℕ) : ℚ) ≤ 44100 / 2 := by
    intro h hl hu
    have hx : ((2 * h - 1 : ℕ) : ℚ) ≤ 63 := by
      exact_mod_cast (show (2 * h - 1 : ℕ) ≤ 63 by omega)
    have hx0 : (0 : ℚ) ≤ ((2 * h - 1 : ℕ) : ℚ) := by positivity
    nlinarith
  have h1 := squareBLAux_eq_sum 100 (44100 / 2) (1/4) H 32 le_rfl 0
  rw [show (33 : ℕ) - 32 = 1 from rfl] at h1
  unfold square_band_limited
  rw [h1, zero_add, Finset.sum_Ico_eq_sum_range]
  rw [show (33 : ℕ) - 1 = 32 from rfl]
  have hterms : ∑ k in Finset.range 32,
      Real.sin (2 * Real.pi * ((1/4 : ℚ) : ℝ) * ((2 * (1 + k) - 1 : ℕ) : ℝ))
        / ((2 * (1 + k) - 1 : ℕ) : ℝ)
      = ∑ k in Finset.range 32, ((-1 : ℝ)) ^ k / (2 * (k : ℝ) + 1) := by
    apply Finset.sum_congr rfl
    intro k hk
    rw [show (2 * (1 + k) - 1 : ℕ) = 2 * k + 1 by omega]
    rw [show ((2 * k + 1 : ℕ) : ℝ) = 2 * (k : ℝ) + 1 by push_cast; ring]
    rw [sin_odd_quarter k]
  rw [hterms]

/-- The 32-term Leibniz partial sum is positive. -/
theorem leibniz32_pos : (0 : ℝ) < ∑ k in Finset.range 32, ((-1 : ℝ)) ^ k / (2 * (k : ℝ) + 1) := by
  norm_num [Finset.sum_range_succ]

/-- The 32-term Leibniz partial sum is below 0.785398 < π/4. -/
theorem leibniz32_lt : (∑ k in Finset.range 32, ((-1 : ℝ)) ^ k / (2 * (k : ℝ) + 1))
    < 0.785398 := by
  norm_num [Finset.sum_range_succ]

/-- C8: at phase exactly 0.25 with frequency 100 Hz and sample rate 44100 Hz, the naive
square generator returns exactly 1.0, while the band-limited square generator returns a
value strictly less than 1.0 in magnitude and within [-1.2, 1.2]. -/
theorem claim_C8_square_gibbs :
    square_naive (1/4) = 1 ∧
    |square_band_limited 100 44100 (1/4)| < 1 ∧
    -(1.2 : ℝ) ≤ square_band_limited 100 44100 (1/4) ∧
    square_band_limited 100 44100 (1/4) ≤ (1.2 : ℝ) := by
  have h0 := leibniz32_pos
  have h1 := leibniz32_lt
  have hpi := Real.pi_gt_d6
  have hpi0 := Real.pi_pos
  have hv : square_band_limited 100 44100 (1/4)
      = (∑ k in Finset.range 32, ((-1 : ℝ)) ^ k / (2 * (k : ℝ) + 1)) * 4 / Real.pi :=
    square_band_limited_eval
  have hvpos : 0 < square_band_limited 100 44100 (1/4) := by
    rw [hv]
    positivity
  have hvlt : square_band_limited 100 44100 (1/4) < 1 := by
    rw [hv, div_lt_one hpi0]
    nlinarith
  refine ⟨?_, ?_, ?_, ?_⟩
  · unfold square_naive
    rw [if_pos (by norm_num)]
  · rw [abs_lt]
    constructor <;> linarith
  · linarith
  · linarith
